import Mathlib

/-!
# Verification of the suby-backend data model and handlers

Shallow embedding of the suby-backend repository (an Express/Mongoose
marketplace backend) and proofs about its vendor/firm handlers.

The embedding follows the source files:
* `src/models/Firm.js` — the `Firm` schema (enum-constrained tag arrays,
  single required `vendor` reference) and the `verifyToken` middleware;
* `src/index.js` — the `Vendor` schema (unique username/email, hashed
  password, `firm` reference list);
* `src/controllers/firmController.js` — `addFirm`;
* `src/controllers/vendorController.js` — `vendorRegister`, `vendorLogin`.

Database state is a pair of in-memory collections with fresh-id counters;
each handler is a pure function from a database and a request to a result
carrying the new database, the HTTP status, and the ordered trace of
database operations it executed.
-/

namespace Suby

/-- Mongo object ids, modelled as naturals drawn from per-collection
fresh-id counters. -/
abbrev VendorId := Nat

abbrev FirmId := Nat

/-- The persisted password field of a vendor.  `vendorRegister` stores
`bcrypt.hash(password, 10)`, never the plaintext; the two constructors
keep a hash and a plaintext value distinguishable. -/
inductive PwStored where
  | plain (s : String)
  | hashed (s : String)
deriving DecidableEq, Repr

/-- `bcrypt.hash(password, 10)` as used in `vendorRegister`. -/
def bcryptHash (password : String) : PwStored := .hashed password

/-- `bcrypt.compare(password, stored)` as used in `vendorLogin`. -/
def bcryptCompare (password : String) (stored : PwStored) : Bool :=
  stored == .hashed password

/-- The `Vendor` schema of `src/index.js`: unique username, unique email,
required password, a list `firm` of Firm references, and the
`createdAt`/`updatedAt` timestamps added by `timestamps: true`
(instants modelled as naturals). -/
structure Vendor where
  _id : VendorId
  username : String
  email : String
  password : PwStored
  firm : List FirmId
  createdAt : Nat
  updatedAt : Nat
deriving DecidableEq, Repr

/-- A persisted `Firm` document per `src/models/Firm.js`: required unique
`firmName`, required `area`, enum-constrained `category` and `region`
arrays, optional `offer` and `image`, a single required `vendor`
reference, and the `createdAt`/`updatedAt` timestamps added by
`timestamps: true`. -/
structure Firm where
  _id : FirmId
  firmName : String
  area : String
  category : List String
  region : List String
  offer : Option String
  image : Option String
  vendor : VendorId
  createdAt : Nat
  updatedAt : Nat
deriving DecidableEq, Repr

/-- `enum: ['veg', 'non-veg']` on `category` in `src/models/Firm.js`. -/
def categoryEnum : List String := ["veg", "non-veg"]

/-- `enum: ['south-indian', 'north-indian', 'chinese', 'bakery']` on
`region` in `src/models/Firm.js`. -/
def regionEnum : List String :=
  ["south-indian", "north-indian", "chinese", "bakery"]

/-- The database: the two Mongo collections plus fresh-id counters used
to model object-id generation at `save()`. -/
structure DB where
  vendors : List Vendor
  firms : List Firm
  nextVendorId : Nat
  nextFirmId : Nat
deriving DecidableEq, Repr

/-- `Vendor.findById(id)`. -/
def findVendorById (db : DB) (id : VendorId) : Option Vendor :=
  db.vendors.find? (fun v => v._id == id)

/-- `Firm.findById(id)` (used only in statements about persisted firms). -/
def findFirmById (db : DB) (id : FirmId) : Option Firm :=
  db.firms.find? (fun f => f._id == id)

/-- `Vendor.findOne({ $or: [{ email }, { username }] })` from
`vendorRegister`. -/
def findVendorByEmailOrUsername (db : DB) (email username : String) :
    Option Vendor :=
  db.vendors.find? (fun v => v.email == email || v.username == username)

/-- `Vendor.findOne({ email })` from `vendorLogin`. -/
def findVendorByEmail (db : DB) (email : String) : Option Vendor :=
  db.vendors.find? (fun v => v.email == email)

/-- JavaScript `String.prototype.toLowerCase()`, embedded character-wise. -/
def jsToLowerCase (s : String) : String := ⟨s.data.map Char.toLower⟩

/-- The whitespace characters stripped by JavaScript
`String.prototype.trim()` (the common ASCII ones). -/
def isJsSpace (c : Char) : Bool :=
  c == ' ' || c == '\t' || c == '\n' || c == '\r' || c == '\x0b' || c == '\x0c'

/-- JavaScript `String.prototype.trim()`: drop leading and trailing
whitespace. -/
def jsTrim (s : String) : String :=
  ⟨((s.data.dropWhile isJsSpace).reverse.dropWhile isJsSpace).reverse⟩

/-- `email.trim().toLowerCase()` — the normalization applied by both
`vendorRegister` and `vendorLogin`. -/
def normalize (s : String) : String := jsToLowerCase (jsTrim s)

/-- A database operation, for tracing how many reads/writes a handler
performs and in what order. -/
inductive DbOp where
  | readVendorById (id : VendorId)
  | readVendorByEmailOrUsername (email username : String)
  | readVendorByEmail (email : String)
  | writeFirm (f : Firm)
  | writeVendor (v : Vendor)
deriving DecidableEq, Repr

/-- Result of running one handler: the database afterwards, the HTTP
status of the response, and the ordered trace of database operations. -/
structure HandlerResult where
  db : DB
  status : Nat
  ops : List DbOp
deriving DecidableEq, Repr

/-- Request body of `POST /vendor/register`. -/
structure RegisterBody where
  username : String
  email : String
  password : String
deriving DecidableEq, Repr

/-- `vendorRegister` from `src/controllers/vendorController.js`:
normalize email and username, reject with 400 when a vendor with the
normalized email or username already exists, otherwise hash the
password with bcrypt and save the new vendor (201); `save()` stamps
both timestamps with the current time `now`. -/
def vendorRegister (db : DB) (now : Nat) (b : RegisterBody) : HandlerResult :=
  let ne := normalize b.email
  let nu := normalize b.username
  match findVendorByEmailOrUsername db ne nu with
  | some _ => ⟨db, 400, [.readVendorByEmailOrUsername ne nu]⟩
  | none =>
    let newVendor : Vendor :=
      ⟨db.nextVendorId, nu, ne, bcryptHash b.password, [], now, now⟩
    ⟨⟨db.vendors ++ [newVendor], db.firms, db.nextVendorId + 1, db.nextFirmId⟩,
      201, [.readVendorByEmailOrUsername ne nu, .writeVendor newVendor]⟩

/-- Request body of `POST /vendor/login`. -/
structure LoginBody where
  email : String
  password : String
deriving DecidableEq, Repr

/-- `vendorLogin` from `src/controllers/vendorController.js`: normalize
the email, look the vendor up by it, and reject with 400 unless the
vendor exists and the bcrypt comparison succeeds; on success sign a JWT
and respond 200. -/
def vendorLogin (db : DB) (b : LoginBody) : HandlerResult :=
  let ne := normalize b.email
  match findVendorByEmail db ne with
  | none => ⟨db, 400, [.readVendorByEmail ne]⟩
  | some vendor =>
    if bcryptCompare b.password vendor.password then
      ⟨db, 200, [.readVendorByEmail ne]⟩
    else
      ⟨db, 400, [.readVendorByEmail ne]⟩

/-- Request body of `POST /firm/add-firm` (after body parsing). -/
structure AddFirmBody where
  firmName : Option String
  area : Option String
  category : List String
  region : List String
  offer : Option String
deriving DecidableEq, Repr

/-- The request as seen by the `addFirm` handler: parsed body, the
filename stored by multer when a file was uploaded (`req.file`), and
the `req.vendorId` attached by `verifyToken`. -/
structure AddFirmReq where
  body : AddFirmBody
  file : Option String
  vendorId : VendorId
deriving DecidableEq, Repr

/-- The in-memory document `new Firm({...})` before `save()` validates
it: required fields may still be absent. -/
structure FirmDoc where
  firmName : Option String
  area : Option String
  category : List String
  region : List String
  offer : Option String
  image : Option String
  vendor : VendorId
deriving DecidableEq, Repr

/-- The document `addFirm` builds:
`new Firm({firmName, area, category, region, offer, image, vendor: vendor._id})`
with `image = req.file ? req.file.filename : undefined`. -/
def mkFirmDoc (req : AddFirmReq) (vendor : Vendor) : FirmDoc :=
  ⟨req.body.firmName, req.body.area, req.body.category, req.body.region,
    req.body.offer, req.file, vendor._id⟩

/-- `firm.save()`: Mongoose validates the document against `firmSchema`
(required `firmName` and `area`, `category`/`region` tags drawn from
their enums, unique `firmName`) and on success persists it under a
fresh id, stamping both timestamps with the current time `now`.  A
validation failure raises, which `addFirm`'s catch turns into a 500
response. -/
def saveFirm (db : DB) (now : Nat) (d : FirmDoc) : Option (DB × Firm) :=
  match d.firmName, d.area with
  | some name, some area =>
    if d.category.all (fun c => categoryEnum.contains c) &&
       d.region.all (fun r => regionEnum.contains r) &&
       db.firms.all (fun g => g.firmName != name) then
      let f : Firm :=
        ⟨db.nextFirmId, name, area, d.category, d.region, d.offer, d.image,
          d.vendor, now, now⟩
      some (⟨db.vendors, db.firms ++ [f], db.nextVendorId, db.nextFirmId + 1⟩, f)
    else none
  | _, _ => none

/-- `vendor.save()` on a document fetched by `findById`: Mongoose
stamps the document's `updatedAt` with the current time `now` and
writes it back over the record with the same `_id`. -/
def saveVendorUpdate (db : DB) (now : Nat) (v : Vendor) : DB :=
  ⟨db.vendors.map (fun w =>
      if w._id == v._id then { v with updatedAt := now } else w),
    db.firms, db.nextVendorId, db.nextFirmId⟩

/-- The prefix of `addFirm` up to and including the first database
write (`firm.save()`), exposing the intermediate database state that
exists after the firm is persisted but before the vendor's firm list
is updated by the second write. -/
def addFirmSavePhase (db : DB) (now : Nat) (req : AddFirmReq) :
    Option (DB × Firm × Vendor) :=
  match findVendorById db req.vendorId with
  | none => none
  | some vendor =>
    match saveFirm db now (mkFirmDoc req vendor) with
    | none => none
    | some (db1, f) => some (db1, f, vendor)

/-- `addFirm` from `src/controllers/firmController.js`: look up the
vendor (404 when absent), build the firm document with `image` from the
uploaded file, `firm.save()` (500 when validation fails), then push the
saved firm onto the vendor's `firm` list and `vendor.save()` as a
second, separate write (which stamps the owner's `updatedAt`);
respond 200. -/
def addFirm (db : DB) (now : Nat) (req : AddFirmReq) : HandlerResult :=
  match findVendorById db req.vendorId with
  | none => ⟨db, 404, [.readVendorById req.vendorId]⟩
  | some vendor =>
    match saveFirm db now (mkFirmDoc req vendor) with
    | none => ⟨db, 500, [.readVendorById req.vendorId]⟩
    | some (db1, savedFirm) =>
      let vendor' : Vendor :=
        { vendor with firm := vendor.firm ++ [savedFirm._id] }
      ⟨saveVendorUpdate db1 now vendor', 200,
        [.readVendorById req.vendorId, .writeFirm savedFirm,
          .writeVendor { vendor' with updatedAt := now }]⟩

/-- A JWT as produced by `jwt.sign({vendorId}, secretKey)`: the payload
together with the key that signed it. -/
structure Token where
  vendorId : VendorId
  key : String
deriving DecidableEq, Repr

/-- `jwt.sign({vendorId: vendor._id}, secretKey, ...)` from `vendorLogin`. -/
def jwtSign (vendorId : VendorId) (key : String) : Token := ⟨vendorId, key⟩

/-- `jwt.verify(token, secretKey)`: throws when the token is absent
("jwt must be provided") or signed with a different key. -/
def jwtVerify (token : Option Token) (key : String) : Except String VendorId :=
  match token with
  | none => .error "jwt must be provided"
  | some t => if t.key == key then .ok t.vendorId else .error "invalid signature"

/-- Outcome of running the `verifyToken` middleware: the status codes
of the responses it attempted to send, in order, whether it called
`next()`, and the `req.vendorId` it attached. -/
structure MwOutcome where
  sent : List Nat
  nextCalled : Bool
  vendorId : Option VendorId
deriving DecidableEq, Repr

/-- `verifyToken` from `src/models/Firm.js` (lines 50-70): when the
token is missing it sends a 401 WITHOUT returning, then falls through
into the `try` block, where `jwt.verify` on the absent token throws
into the `catch` (500).  With a token present, verification and the
vendor lookup gate `next()`. -/
def verifyToken (db : DB) (token : Option Token) (key : String) : MwOutcome :=
  let sent401 : List Nat := if token.isNone then [401] else []
  match jwtVerify token key with
  | .error _ => ⟨sent401 ++ [500], false, none⟩
  | .ok vid =>
    match findVendorById db vid with
    | none => ⟨sent401 ++ [404], false, none⟩
    | some vendor => ⟨sent401, true, some vendor._id⟩

/-- Modelled from the spec: `routes/firmRoutes.js` is not among the
source files; `src/index.js` mounts it at `/firm`, and the middleware
documentation describes the protected route as running `verifyToken`
before the handler, so the handler runs exactly when the middleware
calls `next()` with `req.vendorId` attached. -/
def protectedAddFirm (db : DB) (now : Nat) (token : Option Token)
    (key : String) (body : AddFirmBody) (file : Option String) :
    HandlerResult :=
  let mw := verifyToken db token key
  match mw.vendorId with
  | some vid =>
    if mw.nextCalled then addFirm db now ⟨body, file, vid⟩
    else ⟨db, (mw.sent.getLast?).getD 500, []⟩
  | none => ⟨db, (mw.sent.getLast?).getD 500, []⟩

/-- Every firm id referenced from any vendor's firm list was allocated
by the fresh-id counter (true of every state the handlers produce). -/
def vendorRefsBounded (db : DB) : Bool :=
  db.vendors.all (fun v => v.firm.all (fun fid => fid < db.nextFirmId))

/-- Vendor ids are pairwise distinct. -/
@[reducible] def vendorIdsNodup (db : DB) : Prop :=
  (db.vendors.map Vendor._id).Nodup

/-- Tag validity of a persisted firm: every category tag in the category
enum and every region tag in the region enum. -/
def firmTagsOk (f : Firm) : Bool :=
  f.category.all (fun c => categoryEnum.contains c) &&
    f.region.all (fun r => regionEnum.contains r)

/-- A concrete save time, used to instantiate theorems at closed
inputs. -/
def exNow : Nat := 5

/-- A concrete vendor, used to instantiate theorems at closed inputs. -/
def exVendor : Vendor := ⟨0, "ven", "v@e.co", PwStored.hashed "pw", [], 0, 0⟩

/-- A concrete one-vendor database. -/
def exDb : DB := ⟨[exVendor], [], 1, 0⟩

/-- A concrete valid add-firm body. -/
def exAddBody : AddFirmBody :=
  ⟨some "Paradise", some "Nizampet", ["veg"], ["chinese"], none⟩

/-- A concrete add-firm request without an uploaded file. -/
def exAddReq : AddFirmReq := ⟨exAddBody, none, 0⟩

/-- A concrete add-firm request with an uploaded file. -/
def exAddReqImg : AddFirmReq := ⟨exAddBody, some "1712_logo.png", 0⟩

/-- An add-firm request naming a vendor id not in `exDb`. -/
def exAddReqGhost : AddFirmReq := ⟨exAddBody, none, 7⟩

/-- A concrete registration body with unnormalized email. -/
def exRegBody : RegisterBody := ⟨"NewVen", " A@B.Com ", "secret"⟩

/-- A registration body clashing with `exVendor`'s email. -/
def exRegBodyDup : RegisterBody := ⟨"other", "V@E.Co", "pw2"⟩

/-- The firm document `addFirm` builds for `exAddReq`. -/
def exDoc : FirmDoc := mkFirmDoc exAddReq exVendor

/-- The firm persisted by `addFirm exDb exNow exAddReq`. -/
def exFirm : Firm :=
  ⟨0, "Paradise", "Nizampet", ["veg"], ["chinese"], none, none, 0,
    exNow, exNow⟩

/-- The intermediate database after `firm.save()` but before
`vendor.save()` in `addFirm exDb exNow exAddReq`. -/
def exDb1 : DB := ⟨[exVendor], [exFirm], 1, 1⟩

/-! ## Helper lemmas -/

theorem saveFirm_some_spec {db : DB} {now : Nat} {d : FirmDoc} {db' : DB}
    {f : Firm} (h : saveFirm db now d = some (db', f)) :
    db' = ⟨db.vendors, db.firms ++ [f], db.nextVendorId, db.nextFirmId + 1⟩ ∧
      f._id = db.nextFirmId ∧ d.firmName = some f.firmName ∧
      d.area = some f.area ∧ f.category = d.category ∧ f.region = d.region ∧
      f.offer = d.offer ∧ f.image = d.image ∧ f.vendor = d.vendor ∧
      firmTagsOk f = true := by
  unfold saveFirm at h
  split at h
  · split at h
    · simp only [Option.some.injEq, Prod.mk.injEq] at h
      obtain ⟨rfl, rfl⟩ := h
      rename_i name area hname harea hcond
      simp only [Bool.and_eq_true] at hcond
      refine ⟨rfl, rfl, hname, harea, rfl, rfl, rfl, rfl, rfl, ?_⟩
      simp only [firmTagsOk, Bool.and_eq_true]
      exact ⟨hcond.1.1, hcond.1.2⟩
    · exact Option.noConfusion h
  · exact Option.noConfusion h

theorem addFirm_200_spec {db : DB} {now : Nat} {req : AddFirmReq}
    (h : (addFirm db now req).status = 200) :
    ∃ v f, findVendorById db req.vendorId = some v ∧
      saveFirm db now (mkFirmDoc req v) =
        some (⟨db.vendors, db.firms ++ [f], db.nextVendorId,
          db.nextFirmId + 1⟩, f) ∧
      addFirm db now req =
        ⟨saveVendorUpdate
            ⟨db.vendors, db.firms ++ [f], db.nextVendorId, db.nextFirmId + 1⟩
            now { v with firm := v.firm ++ [f._id] }, 200,
          [.readVendorById req.vendorId, .writeFirm f,
            .writeVendor
              { v with
                  firm := v.firm ++ [f._id],
                  updatedAt := now }]⟩ := by
  cases hv : findVendorById db req.vendorId with
  | none => simp [addFirm, hv] at h
  | some vendor =>
    cases hs : saveFirm db now (mkFirmDoc req vendor) with
    | none => simp [addFirm, hv, hs] at h
    | some p =>
      obtain ⟨db1, f⟩ := p
      obtain ⟨hdb1, -⟩ := saveFirm_some_spec hs
      subst hdb1
      refine ⟨vendor, f, rfl, hs, ?_⟩
      simp only [addFirm, hv, hs]

theorem find?_append_of_none {α : Type} {p : α → Bool} {l1 l2 : List α}
    (h : l1.find? p = none) : (l1 ++ l2).find? p = l2.find? p := by
  induction l1 with
  | nil => simp
  | cons a l ih =>
    by_cases hp : p a = true
    · rw [List.find?_cons_of_pos _ hp] at h; exact Option.noConfusion h
    · rw [List.find?_cons_of_neg _ (by simpa using hp)] at h
      rw [List.cons_append, List.find?_cons_of_neg _ (by simpa using hp)]
      exact ih h

/-! ## Claim theorems -/

/-- Claim C1: in `addFirm` the firm document is persisted first and only
afterwards is its id appended to the owning vendor's firm list, as two
separate writes: in the intermediate state reached by `firm.save()` the
firm is persisted but appears in no vendor's firm list, and the final
state is produced from that intermediate state by the separate
`vendor.save()` write, so a failure between the two writes leaves a
persisted firm absent from its vendor's firm list. -/
theorem addFirm_writes_firm_then_vendor (db : DB) (now : Nat)
    (req : AddFirmReq) (db1 : DB) (f : Firm) (v : Vendor)
    (hwf : vendorRefsBounded db = true)
    (hphase : addFirmSavePhase db now req = some (db1, f, v)) :
    f ∈ db1.firms ∧ (∀ w ∈ db1.vendors, f._id ∉ w.firm) ∧
      addFirm db now req =
        ⟨saveVendorUpdate db1 now { v with firm := v.firm ++ [f._id] }, 200,
          [.readVendorById req.vendorId, .writeFirm f,
            .writeVendor
              { v with
                  firm := v.firm ++ [f._id],
                  updatedAt := now }]⟩ := by
  unfold addFirmSavePhase at hphase
  cases hv : findVendorById db req.vendorId with
  | none => rw [hv] at hphase; exact Option.noConfusion hphase
  | some vendor =>
    simp only [hv] at hphase
    cases hs : saveFirm db now (mkFirmDoc req vendor) with
    | none =>
      simp only [hs] at hphase
      exact Option.noConfusion hphase
    | some p =>
      obtain ⟨db1', f'⟩ := p
      simp only [hs] at hphase
      simp only [Option.some.injEq, Prod.mk.injEq] at hphase
      obtain ⟨rfl, rfl, rfl⟩ := hphase
      obtain ⟨hdb1, hid, -⟩ := saveFirm_some_spec hs
      subst hdb1
      refine ⟨by simp, ?_, ?_⟩
      · intro w hw hmem
        simp only [vendorRefsBounded, List.all_eq_true, decide_eq_true_eq]
          at hwf
        have hlt := hwf w hw _ hmem
        rw [hid] at hlt
        exact lt_irrefl _ hlt
      · simp only [addFirm, hv, hs]

/-- Claim C1 witness: the theorem instantiated at a concrete database
and request. -/
theorem addFirm_writes_firm_then_vendor_witness :
    (vendorRefsBounded exDb = true ∧
      addFirmSavePhase exDb exNow exAddReq =
        some (exDb1, exFirm, exVendor)) ∧
    (exFirm ∈ exDb1.firms ∧ (∀ w ∈ exDb1.vendors, exFirm._id ∉ w.firm) ∧
      addFirm exDb exNow exAddReq =
        ⟨saveVendorUpdate exDb1 exNow
            { exVendor with firm := exVendor.firm ++ [exFirm._id] }, 200,
          [.readVendorById exAddReq.vendorId, .writeFirm exFirm,
            .writeVendor
              { exVendor with
                  firm := exVendor.firm ++ [exFirm._id],
                  updatedAt := exNow }]⟩) :=
  ⟨⟨by decide, by decide⟩,
    addFirm_writes_firm_then_vendor exDb exNow exAddReq exDb1 exFirm
      exVendor (by decide) (by decide)⟩

/-- Claim C2 counterexample: a successful `addFirm` request performs
three database operations (one read, two writes), not exactly one. -/
theorem single_db_op_per_request_counterexample :
    (addFirm exDb exNow exAddReq).status = 200 ∧
      (addFirm exDb exNow exAddReq).ops.length = 3 := by decide

/-- Claim C2 (amended): each handler performs a bounded, sequential
number of database operations per request, but not exactly one:
`addFirm` performs up to three (and exactly three on success),
`vendorRegister` up to two, and `vendorLogin` exactly one. -/
theorem handlers_db_op_counts (db : DB) (now : Nat) (rq : AddFirmReq)
    (rb : RegisterBody) (lb : LoginBody) :
    (addFirm db now rq).ops.length ≤ 3 ∧
      ((addFirm db now rq).status = 200 →
        (addFirm db now rq).ops.length = 3) ∧
      (vendorRegister db now rb).ops.length ≤ 2 ∧
      (vendorLogin db lb).ops.length = 1 := by
  refine ⟨?_, ?_, ?_, ?_⟩
  · cases hv : findVendorById db rq.vendorId with
    | none => simp [addFirm, hv]
    | some vendor =>
      cases hs : saveFirm db now (mkFirmDoc rq vendor) with
      | none => simp [addFirm, hv, hs]
      | some p =>
        obtain ⟨db1, f⟩ := p
        simp [addFirm, hv, hs]
  · intro h200
    obtain ⟨v, f, -, -, heq⟩ := addFirm_200_spec h200
    rw [heq]
    rfl
  · cases hr : findVendorByEmailOrUsername db (normalize rb.email)
        (normalize rb.username) with
    | none => simp [vendorRegister, hr]
    | some v => simp [vendorRegister, hr]
  · cases hl : findVendorByEmail db (normalize lb.email) with
    | none => simp [vendorLogin, hl]
    | some v =>
      by_cases hc : bcryptCompare lb.password v.password = true <;>
        simp [vendorLogin, hl, hc]

/-- Claim C2 (amended) witness: the operation-count bounds at concrete
requests. -/
theorem handlers_db_op_counts_witness :
    (addFirm exDb exNow exAddReq).ops.length ≤ 3 ∧
      ((addFirm exDb exNow exAddReq).status = 200 →
        (addFirm exDb exNow exAddReq).ops.length = 3) ∧
      (vendorRegister exDb exNow exRegBody).ops.length ≤ 2 ∧
      (vendorLogin exDb ⟨"v@e.co", "pw"⟩).ops.length = 1 :=
  handlers_db_op_counts exDb exNow exAddReq exRegBody ⟨"v@e.co", "pw"⟩

/-- Claim C10: a request to the protected firm-creation route carrying
no token never reaches `next()`: `verifyToken` sends the 401 (without
returning) and then `jwt.verify` on the absent token throws into the
catch branch (500), so the `addFirm` handler never runs and the
database is unchanged. -/
theorem verifyToken_missing_token_blocks_addFirm (db : DB) (now : Nat)
    (key : String) (body : AddFirmBody) (file : Option String) :
    (verifyToken db none key).nextCalled = false ∧
      (verifyToken db none key).sent = [401, 500] ∧
      (protectedAddFirm db now none key body file).db = db :=
  ⟨rfl, rfl, rfl⟩

/-- Claim C3: every firm persisted by `addFirm` carries a single
`vendor` reference (the field holds one id) equal to the id of a
vendor existing in the database, and when no vendor with the request's
id exists the handler answers 404 and creates no firm. -/
theorem firm_references_one_existing_vendor (db : DB) (now : Nat)
    (req : AddFirmReq) :
    ((addFirm db now req).status = 200 →
      ∃ f, (addFirm db now req).db.firms = db.firms ++ [f] ∧
        f.vendor = req.vendorId ∧ ∃ v ∈ db.vendors, v._id = req.vendorId) ∧
    ((∀ v ∈ db.vendors, v._id ≠ req.vendorId) →
      (addFirm db now req).db = db ∧ (addFirm db now req).status = 404) := by
  constructor
  · intro h200
    obtain ⟨v, f, hv, hs, heq⟩ := addFirm_200_spec h200
    obtain ⟨-, -, -, -, -, -, -, -, hvend, -⟩ := saveFirm_some_spec hs
    have hmem := List.mem_of_find?_eq_some hv
    have hpred := List.find?_some hv
    simp only [beq_iff_eq] at hpred
    refine ⟨f, by rw [heq]; rfl, ?_, v, hmem, hpred⟩
    rw [hvend]
    exact hpred
  · intro hall
    have hnone : findVendorById db req.vendorId = none := by
      unfold findVendorById
      rw [List.find?_eq_none]
      intro x hx
      simp only [beq_iff_eq]
      exact hall x hx
    constructor <;> simp [addFirm, hnone]

/-- Claim C3 witness: instantiations at a request naming an existing
vendor and at one naming an absent vendor. -/
theorem firm_references_one_existing_vendor_witness :
    ((addFirm exDb exNow exAddReq).status = 200 ∧
      (∃ f, (addFirm exDb exNow exAddReq).db.firms = exDb.firms ++ [f] ∧
        f.vendor = exAddReq.vendorId ∧
        ∃ v ∈ exDb.vendors, v._id = exAddReq.vendorId)) ∧
    ((∀ v ∈ exDb.vendors, v._id ≠ exAddReqGhost.vendorId) ∧
      ((addFirm exDb exNow exAddReqGhost).db = exDb ∧
        (addFirm exDb exNow exAddReqGhost).status = 404)) :=
  ⟨⟨by decide,
      (firm_references_one_existing_vendor exDb exNow exAddReq).1
        (by decide)⟩,
    ⟨by decide,
      (firm_references_one_existing_vendor exDb exNow exAddReqGhost).2
        (by decide)⟩⟩

/-- Claim C4: `firm.save()` only persists firms whose category tags lie
in the category enum and whose region tags lie in the region enum; tag
validity of the whole firms collection is preserved by `addFirm`. -/
theorem firm_tags_enum_constrained (db : DB) (now : Nat)
    (req : AddFirmReq) (d : FirmDoc) :
    (∀ db' f, saveFirm db now d = some (db', f) → firmTagsOk f = true) ∧
    ((∀ f ∈ db.firms, firmTagsOk f = true) →
      ∀ f ∈ (addFirm db now req).db.firms, firmTagsOk f = true) := by
  constructor
  · intro db' f hs
    exact (saveFirm_some_spec hs).2.2.2.2.2.2.2.2.2
  · intro hinv
    cases hv : findVendorById db req.vendorId with
    | none => simpa [addFirm, hv] using hinv
    | some vendor =>
      cases hs : saveFirm db now (mkFirmDoc req vendor) with
      | none => simpa [addFirm, hv, hs] using hinv
      | some p =>
        obtain ⟨db1, f⟩ := p
        obtain ⟨hdb1, -, -, -, -, -, -, -, -, htags⟩ := saveFirm_some_spec hs
        subst hdb1
        intro g hg
        simp [addFirm, hv, hs, saveVendorUpdate] at hg
        rcases hg with hg | rfl
        · exact hinv g hg
        · exact htags

/-- Claim C4 witness: the enum constraint at a concrete document and
the preservation at a concrete database. -/
theorem firm_tags_enum_constrained_witness :
    (saveFirm exDb exNow exDoc = some (exDb1, exFirm) ∧
      firmTagsOk exFirm = true) ∧
    ((∀ f ∈ exDb.firms, firmTagsOk f = true) ∧
      ∀ f ∈ (addFirm exDb exNow exAddReq).db.firms, firmTagsOk f = true) :=
  ⟨⟨by decide,
      (firm_tags_enum_constrained exDb exNow exAddReq exDoc).1 exDb1 exFirm
        (by decide)⟩,
    ⟨by decide,
      (firm_tags_enum_constrained exDb exNow exAddReq exDoc).2
        (by decide)⟩⟩

/-- Claim C5: `vendorRegister` answers 400 and writes nothing exactly
when some existing vendor already has the normalized email or the
normalized username, and otherwise answers 201 and appends the new
vendor. -/
theorem vendorRegister_unique_email_username (db : DB) (now : Nat)
    (b : RegisterBody) :
    ((vendorRegister db now b).status = 400 ↔
      ∃ v ∈ db.vendors,
        v.email = normalize b.email ∨ v.username = normalize b.username) ∧
    ((vendorRegister db now b).status = 400 →
      (vendorRegister db now b).db = db) ∧
    ((vendorRegister db now b).status ≠ 400 →
      (vendorRegister db now b).status = 201 ∧
      (vendorRegister db now b).db.vendors =
        db.vendors ++
          [⟨db.nextVendorId, normalize b.username, normalize b.email,
            bcryptHash b.password, [], now, now⟩]) := by
  cases hr : findVendorByEmailOrUsername db (normalize b.email)
      (normalize b.username) with
  | some v =>
    have hmem := List.mem_of_find?_eq_some hr
    have hpred := List.find?_some hr
    simp only [Bool.or_eq_true, beq_iff_eq] at hpred
    exact ⟨⟨fun _ => ⟨v, hmem, hpred⟩,
        fun _ => by simp [vendorRegister, hr]⟩,
      fun _ => by simp [vendorRegister, hr],
      fun hne => absurd (by simp [vendorRegister, hr]) hne⟩
  | none =>
    have hnone := List.find?_eq_none.mp hr
    refine ⟨⟨fun h400 => absurd h400 (by simp [vendorRegister, hr]),
        fun hex => ?_⟩,
      fun h400 => absurd h400 (by simp [vendorRegister, hr]),
      fun _ => ⟨by simp [vendorRegister, hr], by simp [vendorRegister, hr]⟩⟩
    obtain ⟨v, hv, hor⟩ := hex
    have hx := hnone v hv
    simp only [Bool.or_eq_true, beq_iff_eq] at hx
    exact absurd hor hx

/-- Claim C5 witness: a duplicate-email registration rejected without a
write, and a fresh registration accepted. -/
theorem vendorRegister_unique_email_username_witness :
    ((vendorRegister exDb exNow exRegBodyDup).status = 400 ∧
      (vendorRegister exDb exNow exRegBodyDup).db = exDb) ∧
    ((vendorRegister exDb exNow exRegBody).status ≠ 400 ∧
      ((vendorRegister exDb exNow exRegBody).status = 201 ∧
        (vendorRegister exDb exNow exRegBody).db.vendors =
          exDb.vendors ++
            [⟨exDb.nextVendorId, normalize exRegBody.username,
              normalize exRegBody.email, bcryptHash exRegBody.password,
              [], exNow, exNow⟩])) :=
  ⟨⟨by decide,
      (vendorRegister_unique_email_username exDb exNow exRegBodyDup).2.1
        (by decide)⟩,
    ⟨by decide,
      (vendorRegister_unique_email_username exDb exNow exRegBody).2.2
        (by decide)⟩⟩

/-- Claim C6: every successful registration persists the bcrypt hash of
the submitted password on the new vendor, never the plaintext. -/
theorem vendorRegister_stores_bcrypt_hash (db : DB) (now : Nat)
    (b : RegisterBody)
    (h : (vendorRegister db now b).status = 201) :
    ∃ v, (vendorRegister db now b).db.vendors = db.vendors ++ [v] ∧
      v.password = bcryptHash b.password ∧
      ∀ s : String, v.password ≠ PwStored.plain s := by
  cases hr : findVendorByEmailOrUsername db (normalize b.email)
      (normalize b.username) with
  | some v => simp [vendorRegister, hr] at h
  | none =>
    exact ⟨⟨db.nextVendorId, normalize b.username, normalize b.email,
        bcryptHash b.password, [], now, now⟩,
      by simp [vendorRegister, hr], rfl,
      fun s hps => PwStored.noConfusion hps⟩

/-- Claim C6 witness: the hashed password at a concrete registration. -/
theorem vendorRegister_stores_bcrypt_hash_witness :
    (vendorRegister exDb exNow exRegBody).status = 201 ∧
      ∃ v, (vendorRegister exDb exNow exRegBody).db.vendors =
          exDb.vendors ++ [v] ∧
        v.password = bcryptHash exRegBody.password ∧
        ∀ s : String, v.password ≠ PwStored.plain s :=
  ⟨by decide,
    vendorRegister_stores_bcrypt_hash exDb exNow exRegBody (by decide)⟩

/-- Claim C7: the image reference is optional: on every successful
`addFirm` the persisted firm's `image` equals `req.file`, so it is
empty when no file was uploaded and the stored upload filename when one
was. -/
theorem addFirm_image_optional (db : DB) (now : Nat) (req : AddFirmReq)
    (h : (addFirm db now req).status = 200) :
    ∃ f, (addFirm db now req).db.firms = db.firms ++ [f] ∧
      f.image = req.file := by
  obtain ⟨v, f, hv, hs, heq⟩ := addFirm_200_spec h
  obtain ⟨-, -, -, -, -, -, -, himg, -, -⟩ := saveFirm_some_spec hs
  refine ⟨f, by rw [heq]; rfl, ?_⟩
  rw [himg]
  exact rfl

/-- Claim C7 witness: a successful `addFirm` without an upload stores
no image, and one with an upload stores the upload filename. -/
theorem addFirm_image_optional_witness :
    ((addFirm exDb exNow exAddReq).status = 200 ∧
      (∃ f, (addFirm exDb exNow exAddReq).db.firms = exDb.firms ++ [f] ∧
        f.image = none)) ∧
    ((addFirm exDb exNow exAddReqImg).status = 200 ∧
      (∃ f, (addFirm exDb exNow exAddReqImg).db.firms = exDb.firms ++ [f] ∧
        f.image = some "1712_logo.png")) :=
  ⟨⟨by decide, addFirm_image_optional exDb exNow exAddReq (by decide)⟩,
    ⟨by decide, addFirm_image_optional exDb exNow exAddReqImg (by decide)⟩⟩

/-- Claim C8 counterexample: the claim as stated is false, because
`vendor.save()` also stamps the owning vendor's `updatedAt` timestamp
(a field of the Vendor record per `timestamps: true`): after a
successful `addFirm` at time 5 the owner, whose `updatedAt` was 0,
carries `updatedAt = 5`, so the vendors collection differs from the old
one with only the owner's firm list extended. -/
theorem addFirm_frame_counterexample :
    (addFirm exDb exNow exAddReq).status = 200 ∧
      findVendorById (addFirm exDb exNow exAddReq).db 0 =
        some { exVendor with firm := [0], updatedAt := exNow } ∧
      exVendor.updatedAt ≠ exNow ∧
      (addFirm exDb exNow exAddReq).db.vendors ≠
        exDb.vendors.map (fun w =>
          if w._id = 0 then { w with firm := w.firm ++ [0] } else w) := by
  decide

/-- Claim C8 (amended): a successful `addFirm` appends the new firm's
id at the end of the owning vendor's firm list and, apart from the
owner's `updatedAt` timestamp stamped by `vendor.save()`, modifies
nothing else: the vendors collection is the old one with only the
owner's `firm` and `updatedAt` fields changed, all other fields and
all other vendors unchanged, and the firms collection gains exactly
the new firm at the end. -/
theorem addFirm_appends_to_owner_only (db : DB) (now : Nat)
    (req : AddFirmReq) (hn : vendorIdsNodup db)
    (h : (addFirm db now req).status = 200) :
    ∃ v f, findVendorById db req.vendorId = some v ∧
      (addFirm db now req).db.firms = db.firms ++ [f] ∧
      (addFirm db now req).db.vendors =
        db.vendors.map (fun w =>
          if w._id = v._id then
            { w with firm := w.firm ++ [f._id], updatedAt := now }
          else w) := by
  obtain ⟨v, f, hv, hs, heq⟩ := addFirm_200_spec h
  refine ⟨v, f, hv, by rw [heq]; rfl, ?_⟩
  rw [heq]
  show (saveVendorUpdate _ _ _).vendors = _
  unfold saveVendorUpdate
  have hvmem := List.mem_of_find?_eq_some hv
  apply List.map_congr_left
  intro w hw
  by_cases hid : w._id = v._id
  · have hweq : w = v := List.inj_on_of_nodup_map hn hw hvmem hid
    subst hweq
    simp
  · simp [hid]

/-- Claim C8 (amended) witness: the frame property at a concrete
database and request. -/
theorem addFirm_appends_to_owner_only_witness :
    (vendorIdsNodup exDb ∧ (addFirm exDb exNow exAddReq).status = 200) ∧
    (∃ v f, findVendorById exDb exAddReq.vendorId = some v ∧
      (addFirm exDb exNow exAddReq).db.firms = exDb.firms ++ [f] ∧
      (addFirm exDb exNow exAddReq).db.vendors =
        exDb.vendors.map (fun w =>
          if w._id = v._id then
            { w with firm := w.firm ++ [f._id], updatedAt := exNow }
          else w)) :=
  ⟨⟨by decide, by decide⟩,
    addFirm_appends_to_owner_only exDb exNow exAddReq (by decide)
      (by decide)⟩

/-- Claim C9: registration and login normalize the email identically
(trim then lowercase), so a vendor registered with email e can log in
with any e' that differs only in case or surrounding whitespace
(normalizing to the same string), given the correct password. -/
theorem register_then_login_roundtrip (db : DB) (now : Nat)
    (b : RegisterBody) (e' : String)
    (hreg : (vendorRegister db now b).status = 201)
    (hnorm : normalize e' = normalize b.email) :
    (vendorLogin (vendorRegister db now b).db
      ⟨e', b.password⟩).status = 200 := by
  cases hr : findVendorByEmailOrUsername db (normalize b.email)
      (normalize b.username) with
  | some v => simp [vendorRegister, hr] at hreg
  | none =>
    have hnone := List.find?_eq_none.mp hr
    have hdb : (vendorRegister db now b).db =
        ⟨db.vendors ++
          [⟨db.nextVendorId, normalize b.username, normalize b.email,
            bcryptHash b.password, [], now, now⟩], db.firms,
          db.nextVendorId + 1, db.nextFirmId⟩ := by
      simp [vendorRegister, hr]
    have hpre : db.vendors.find? (fun v => v.email == normalize e') =
        none := by
      rw [List.find?_eq_none]
      intro x hx
      have hx' := hnone x hx
      simp only [Bool.or_eq_true, beq_iff_eq, not_or] at hx'
      simp only [beq_iff_eq, hnorm]
      exact hx'.1
    have hfind : findVendorByEmail ((vendorRegister db now b).db)
        (normalize e') =
        some ⟨db.nextVendorId, normalize b.username, normalize b.email,
          bcryptHash b.password, [], now, now⟩ := by
      rw [hdb]
      show (db.vendors ++
          [Vendor.mk db.nextVendorId (normalize b.username)
            (normalize b.email) (bcryptHash b.password) [] now now]).find?
          (fun v : Vendor => v.email == normalize e') = _
      rw [find?_append_of_none hpre]
      rw [List.find?_cons_of_pos _ (by simp [hnorm])]
    simp only [vendorLogin, hfind]
    simp [bcryptCompare, bcryptHash]

/-- Claim C9 witness: register with a padded mixed-case email, then log
in with another casing of it. -/
theorem register_then_login_roundtrip_witness :
    ((vendorRegister exDb exNow exRegBody).status = 201 ∧
      normalize "a@b.COM" = normalize exRegBody.email) ∧
    (vendorLogin (vendorRegister exDb exNow exRegBody).db
      ⟨"a@b.COM", exRegBody.password⟩).status = 200 :=
  ⟨⟨by decide, by decide⟩,
    register_then_login_roundtrip exDb exNow exRegBody "a@b.COM"
      (by decide) (by decide)⟩

end Suby
